import Mathlib

/-
Verification of the Neuromaton finite-automaton engine
(src/neuromaton/automata/finite_automaton.py and src/neuromaton/automata/error.py).

The engine is a `networkx.MultiDiGraph` subclass.  Its adjacency structure is a
nesting of insertion-ordered dictionaries:
  adj : source state ↦ (target state ↦ (edge key ↦ attribute dict)).
We embed those dictionaries as insertion-ordered association lists over `String`
keys (states and symbols are hashable identifiers; all uses in the repository
are strings).  `alookup` is dict lookup, `aupsert` is "update the first entry
with this key in place, else append" — exactly Python's dict assignment
semantics (updates keep the key's position, new keys go to the end).
-/

namespace Neuromaton

/-- Dict lookup: the value at the first entry whose key equals `k`. -/
def alookup {β : Type} (k : String) : List (String × β) → Option β
  | [] => none
  | (k', v) :: t => if k' = k then some v else alookup k t

/-- Dict assignment `d[k] = f d.get(k)`: replace the first entry with key `k`
in place, or append a new entry at the end when `k` is absent. -/
def aupsert {β : Type} (k : String) (f : Option β → β) : List (String × β) → List (String × β)
  | [] => [(k, f none)]
  | (k', v) :: t => if k' = k then (k, f (some v)) :: t else (k', v) :: aupsert k f t

/-- Dict assignment with a plain value: `d[k] = v`. -/
def ainsert {β : Type} (k : String) (v : β) (l : List (String × β)) : List (String × β) :=
  aupsert k (fun _ => v) l

/-- Python's `dict.update`: assign every entry of `new` into `d` in order. -/
def dictUpdate {β : Type} (d new : List (String × β)) : List (String × β) :=
  new.foldl (fun acc kv => ainsert kv.1 kv.2 acc) d

/-- The resolved handler stored on an edge.  `add_transition` binds one of
three shapes (see the resolution order in the source, lines 102–124):
a `functools.partial` over the default handler `_default` with
`(first_state, next_state)` pre-applied; a partial over an exposed attribute
(method of the class or a previously attached function) with
`(first_state, next_state)` pre-applied; or a partial over a freshly attached
callable with `(self, first_state, next_state)` pre-applied. -/
inductive Handler where
  | defaultBound (source target : String)
  | methodBound (nm : String) (source target : String)
  | attachedBound (nm : String) (source target : String)
deriving DecidableEq, Repr

/-- An edge-attribute value: user metadata (a string) or the bound handler
callable stashed under the `TRANSITION` sentinel key. -/
inductive AttrVal where
  | str (s : String)
  | handler (h : Handler)
deriving DecidableEq, Repr

/-- An edge attribute dict. -/
abbrev Attrs := List (String × AttrVal)

/-- The fire-time event payload (`**kwargs`), an open key/value bag. -/
abbrev Payload := List (String × String)

/-- The sentinel attribute key under which the resolved handler is stored
(`TRANSITION = '__TRANSITION_FUNCTION'` in the source). -/
def TRANSITION : String := "__TRANSITION_FUNCTION"

/-- The innermost adjacency level of the multigraph: edge key ↦ attribute
dict (`adj[u][v]` in networkx). -/
abbrev KeyDict := List (String × Attrs)

/-- One adjacency row `adj[u]`: target state ↦ key dict. -/
abbrev Row := List (String × KeyDict)

/-- The whole adjacency structure `adj`: source state ↦ row. -/
abbrev Adj := List (String × Row)

instance : DecidableEq Attrs := inferInstance

instance : DecidableEq KeyDict := inferInstance

instance : DecidableEq Row := inferInstance

instance : DecidableEq Adj := inferInstance

/-- The mutable state of a `FiniteAutomaton` instance: the graph's node list
and adjacency structure (from `networkx.MultiDiGraph`), the `current` state
field, the names of callables attached to the instance via `setattr`
(line 105 of the source), and the lines printed so far (the engine's
diagnostic output, modeled as a list of strings). -/
structure Fa where
  nodes : List String
  adj : Adj
  current : String
  attached : List String
  output : List String
deriving DecidableEq, Repr

/-- A symbol argument to `add_transition`: either a plain hashable identifier
or a callable.  A callable is identified by its `__name__` (the source derives
the edge key from `symbol.__name__`, line 103). -/
inductive Symbol where
  | ident (s : String)
  | func (fnName : String)
deriving DecidableEq, Repr

/-- One element of the construction-time `new_transitions` sequence.  The
constructor dispatches on the descriptor's length: `mk2` is a length-2 tuple
`(symbol, states)`, `mk3` a length-3 tuple `(symbol, states, attr_dict)`, and
`other n` stands for a tuple whose length `n` is neither 2 nor 3 (the
constructor's `if len == 2 / elif len == 3` chain has no other branch). -/
inductive TransitionDescr where
  | mk2 (symbol : Symbol) (states : String × String)
  | mk3 (symbol : Symbol) (states : String × String) (attrs : Attrs)
  | other (n : Nat)
deriving DecidableEq, Repr

/-- The semantics of named custom handlers (subclass methods and attached
callables): given the handler's name, the pre-bound source and target states,
the fire-time payload, and the instance's current state and output log, it
returns the new current state and output log.  Custom handlers are user code
outside this repository; per the data model they act on the driver's `current`
field (and may print), so the model lets them update exactly those two
components. -/
abbrev MethodSem := String → String → String → Payload → String → List String → String × List String

/-- Adds a node if absent (`networkx` `add_edge` adds missing endpoints):
appends it to the node list and gives it an empty adjacency row. -/
def addNode (a : Fa) (u : String) : Fa :=
  if u ∈ a.nodes then a
  else { a with nodes := a.nodes ++ [u], adj := a.adj ++ [(u, [])] }

/-- Model of `networkx.MultiDiGraph.add_edge(u, v, key, **attr)`: adds `u` then `v` as
nodes if absent, then if the keyed edge exists updates its attribute dict with
`attr`, else creates the edge with attribute dict `attr`. -/
def add_edge (a : Fa) (u v key : String) (attr : Attrs) : Fa :=
  let a := addNode a u
  let a := addNode a v
  { a with
    adj := aupsert u (fun row =>
      aupsert v (fun kd =>
        aupsert key (fun old =>
          match old with
          | some d => dictUpdate d attr
          | none => attr) (kd.getD []))
        (row.getD [])) a.adj }

/-- The assignment `self[first][next][key][TRANSITION] = h` performed by
`add_transition` right after `add_edge` (so the edge path always exists). -/
def setTransition (a : Fa) (u v key : String) (h : Handler) : Fa :=
  { a with
    adj := aupsert u (fun row =>
      aupsert v (fun kd =>
        aupsert key (fun old => ainsert TRANSITION (.handler h) (old.getD []))
          (kd.getD []))
        (row.getD [])) a.adj }

/-- Truthiness of `getattr(self, name, None)` (line 117): the instance exposes
an attribute with this name — either a callable previously attached via
`setattr`, or an attribute of the class `classAttrs` (the methods the
`FiniteAutomaton` subclass at hand exposes, abstracted as a name list). -/
def getattrB (classAttrs : List String) (a : Fa) (nm : String) : Bool :=
  a.attached.contains nm || classAttrs.contains nm

/-- Model of `FiniteAutomaton.add_transition(symbol, states, attrs)` (source
lines 87–124).  `attrs = attrs or {}`; `first_state, next_state = states`;
then: if the symbol is callable, attach it to the instance under its
`__name__`, add the edge keyed by that name, and store a partial with
`(self, first_state, next_state)` pre-applied; otherwise add the edge keyed by
the symbol, and store a partial over the exposed same-named attribute (with
`(first_state, next_state)` pre-applied) when one exists, else over the
default handler `_default` (with `(first_state, next_state)` pre-applied). -/
def add_transition (classAttrs : List String) (a : Fa) (symbol : Symbol)
    (states : String × String) (attrs : Option Attrs) : Fa :=
  let attrs := attrs.getD []
  let first_state := states.1
  let next_state := states.2
  match symbol with
  | .func fnName =>
    let a := { a with
      attached := if a.attached.contains fnName then a.attached else a.attached ++ [fnName] }
    let a := add_edge a first_state next_state fnName attrs
    setTransition a first_state next_state fnName (.attachedBound fnName first_state next_state)
  | .ident s =>
    let a := add_edge a first_state next_state s attrs
    if getattrB classAttrs a s then
      setTransition a first_state next_state s (.methodBound s first_state next_state)
    else
      setTransition a first_state next_state s (.defaultBound first_state next_state)

/-- One step of the constructor's loop over `new_transitions`: a length-2
descriptor and a length-3 descriptor call `add_transition`; any other length
falls through both branches of the `if/elif` and is skipped. -/
def initStep (classAttrs : List String) (a : Fa) : TransitionDescr → Fa
  | .mk2 symbol states => add_transition classAttrs a symbol states none
  | .mk3 symbol states attrs => add_transition classAttrs a symbol states (some attrs)
  | .other _ => a

/-- Model of `FiniteAutomaton.__init__(new_transitions, initial_state)` (source
lines 50–63): start from the empty graph, set `self.current = initial_state`,
then apply the descriptors in order.  The constructor body contains no raise
statement and no membership check on `initial_state`. -/
def FiniteAutomaton.build (classAttrs : List String) (new_transitions : List TransitionDescr)
    (initial_state : String) : Fa :=
  new_transitions.foldl (initStep classAttrs)
    { nodes := [], adj := [], current := initial_state, attached := [], output := [] }

/-- The construction-time error taxonomy of src/neuromaton/automata/error.py
relevant to the constructor. -/
inductive AutomataError where
  | invalidStartingState (state : String)
  | invalidAcceptingStates (states : List String)
deriving DecidableEq, Repr

/-- Construction viewed as a fallible operation (a Python constructor may
raise).  The body of `FiniteAutomaton.__init__` contains no raise statement —
in particular it never raises `InvalidStartingState` — so the embedding always
returns `.ok`. -/
def FiniteAutomaton.buildE (classAttrs : List String) (new_transitions : List TransitionDescr)
    (initial_state : String) : Except AutomataError Fa :=
  .ok (FiniteAutomaton.build classAttrs new_transitions initial_state)

/-- The first line printed by the default handler `_default`
(`f'moving from {current_state} to {next_state}'`). -/
def defaultMoveMsg (s t : String) : String :=
  "moving from " ++ s ++ " to " ++ t

/-- Deterministic rendering of a payload dict, used to model the default
handler's `print('attributes: ', attrs)` line. -/
def payloadRepr (p : Payload) : String :=
  String.intercalate ", " (p.map (fun kv => kv.1 ++ "=" ++ kv.2))

/-- The second line printed by the default handler. -/
def defaultAttrsMsg (p : Payload) : String :=
  "attributes: " ++ payloadRepr p

/-- The diagnostic printed by `__call__` when the current state has no
outgoing edges. -/
def noConnectionMsg : String :=
  "Failure to transition: no available connection!"

/-- Invoking a bound handler with the fire-time payload.  The default handler
`_default` (source lines 81–85) prints the transition and the payload and then
unconditionally sets `current` to its pre-bound target.  Named custom handlers
(methods and attached callables) act through the `MethodSem` environment. -/
def invoke (env : MethodSem) (h : Handler) (p : Payload) (a : Fa) : Fa :=
  match h with
  | .defaultBound s t =>
    { a with
      output := a.output ++ [defaultMoveMsg s t, defaultAttrsMsg p],
      current := t }
  | .methodBound nm s t =>
    let co := env nm s t p a.current a.output
    { a with current := co.1, output := co.2 }
  | .attachedBound nm s t =>
    let co := env nm s t p a.current a.output
    { a with current := co.1, output := co.2 }

/-- One iteration of the dispatch loop of `__call__`
(`for target_state, transitions in targets.items()`): if `symbol` keys this
target's edge dict, look up the stored `TRANSITION` attribute and call it with
the payload.  A missing `TRANSITION` key raises `KeyError`; a non-callable
value raises `TypeError` (edges built by `add_transition` always store a bound
handler there). -/
def callStep (env : MethodSem) (symbol : String) (p : Payload)
    (st : Fa) (entry : String × KeyDict) : Except String Fa :=
  match alookup symbol entry.2 with
  | none => .ok st
  | some attrs =>
    match alookup TRANSITION attrs with
    | some (.handler h) => .ok (invoke env h p st)
    | some (.str _) => .error "TypeError: value under TRANSITION is not callable"
    | none => .error "KeyError: __TRANSITION_FUNCTION"

/-- Model of `FiniteAutomaton.__call__(symbol, **kwargs)` (source lines 65–79):
`targets = self.adj[self.current]` (a `KeyError` when `current` is not a
node); if `targets` is non-empty, run the dispatch loop over its entries in
insertion order; otherwise print the no-available-connection diagnostic. -/
def call (env : MethodSem) (a : Fa) (symbol : String) (p : Payload) : Except String Fa :=
  match alookup a.current a.adj with
  | none => .error "KeyError: current state is not a node"
  | some targets =>
    if targets.isEmpty then
      .ok { a with output := a.output ++ [noConnectionMsg] }
    else
      targets.foldlM (callStep env symbol p) a

/-- Read-only introspection of the stored `TRANSITION` attribute of edge
`(u, v)` keyed by `key`: `self[u][v][key].get(TRANSITION)`. -/
def edgeTransition (a : Fa) (u v key : String) : Option AttrVal :=
  (((alookup u a.adj).bind (alookup v)).bind (alookup key)).bind (alookup TRANSITION)

/-- The edge key under which `add_transition` registers a symbol: a callable's
`__name__`, or the identifier itself. -/
def keyOf : Symbol → String
  | .ident s => s
  | .func fnName => fnName

/-- The handler that the resolution order of `add_transition` is specified to
produce for a symbol on edge `(u, v)`: callables are attached and bound with
`(self, u, v)`; an identifier naming an exposed attribute binds that attribute
with `(u, v)`; anything else binds the default handler with `(u, v)`. -/
def resolvedHandler (classAttrs : List String) (a : Fa) (symbol : Symbol)
    (u v : String) : Handler :=
  match symbol with
  | .func fnName => .attachedBound fnName u v
  | .ident s =>
    if getattrB classAttrs a s then .methodBound s u v
    else .defaultBound u v

/-- Declarative description of the dispatch of `__call__`: across all entries
of the current state's adjacency row, in insertion (iteration) order, the
stored handlers of the edges keyed by `symbol`. -/
def edgesKeyedBy (targets : Row) (symbol : String) : List Handler :=
  targets.filterMap (fun tv =>
    match alookup symbol tv.2 with
    | some attrs =>
      match alookup TRANSITION attrs with
      | some (.handler h) => some h
      | _ => none
    | none => none)

/-- True when an adjacency-row entry either does not carry `symbol`, or
carries it with a bound handler stored under `TRANSITION` (so dispatching on
it cannot raise). -/
def matchOk (symbol : String) (tv : String × KeyDict) : Bool :=
  match alookup symbol tv.2 with
  | some attrs =>
    match alookup TRANSITION attrs with
    | some (.handler _) => true
    | _ => false
  | none => true

/-- A stored handler is node-safe when the target it would advance `current`
to is a node of the graph.  Only the default handler advances on its own;
named handlers act through the environment. -/
def handlerWF (nodes : List String) : Handler → Bool
  | .defaultBound _ t => nodes.contains t
  | .methodBound _ _ _ => true
  | .attachedBound _ _ _ => true

/-- An attribute dict is node-safe when the value it stores under
`TRANSITION`, if any, is a node-safe bound handler. -/
def attrsWF (nodes : List String) (attrs : Attrs) : Bool :=
  match alookup TRANSITION attrs with
  | some (.handler h) => handlerWF nodes h
  | some (.str _) => false
  | none => true

/-- An adjacency row is node-safe when every attribute dict in it is. -/
def rowWF (nodes : List String) (row : Row) : Bool :=
  row.all (fun tv => tv.2.all (fun ka => attrsWF nodes ka.2))

/-- The whole graph is node-safe when every adjacency row is. -/
def graphWF (a : Fa) : Bool :=
  a.adj.all (fun ur => rowWF a.nodes ur.2)

/-
Model of src/neuromaton/automata/error.py.
-/

/-- Number of `%s` conversion specifiers in a format string. -/
def countPS : List Char → Nat
  | '%' :: 's' :: rest => countPS rest + 1
  | _ :: rest => countPS rest
  | [] => 0

/-- Python's `%` formatting of a format string (containing only `%s`
specifiers) against a single non-tuple argument: it supplies exactly one
value, so formatting succeeds only when the string has exactly one `%s`;
with more specifiers it raises
`TypeError: not enough arguments for format string`, with fewer it raises
`TypeError: not all arguments converted during string formatting`. -/
def pyFormatOne (fmt : String) (arg : String) : Except String String :=
  if countPS fmt.data = 1 then
    .ok (String.intercalate arg (fmt.splitOn "%s"))
  else if countPS fmt.data = 0 then
    .error "TypeError: not all arguments converted during string formatting"
  else
    .error "TypeError: not enough arguments for format string"

/-- The format string of `IllegalTransition.__init__` (error.py line 30). -/
def illegalTransitionFmt : String :=
  "Illegal transition %s from starting node %s"

/-- Model of `IllegalTransition.__init__(start, symbol)` (error.py lines 24–30): the
call `super().__init__('...%s...%s' % start, symbol)` parses as the two
arguments `(fmt % start, symbol)`, so the format string is applied to the
single argument `start` before `Exception.__init__` ever runs.  The embedding
returns the argument pair that would reach `Exception.__init__`, or the
formatting error raised on the way. -/
def IllegalTransition.build (start symbol : String) : Except String (String × String) :=
  (pyFormatOne illegalTransitionFmt start).map (fun msg => (msg, symbol))

/-- Environments that keep `current` within a given node set: custom handlers
are user code, and this is the obligation they must meet for the
current-is-a-node invariant to survive their execution. -/
def envPreserves (N : List String) (env : MethodSem) : Prop :=
  ∀ nm s t p c o, c ∈ N → (env nm s t p c o).1 ∈ N

/-- A custom-handler environment whose named handlers leave the driver state
unchanged, used to instantiate universally quantified statements on concrete
inputs. -/
def envId : MethodSem := fun _ _ _ _ c o => (c, o)

/-- Example: a one-edge automaton with a default-handler edge `go : a → b`,
starting at `a`. -/
def exGo : Fa := FiniteAutomaton.build [] [.mk2 (.ident "go") ("a", "b")] "a"

/-- Example: an automaton whose two edges share the symbol `go` under two
different target states of the same source `a`. -/
def exTwo : Fa :=
  FiniteAutomaton.build [] [.mk2 (.ident "go") ("a", "b"), .mk2 (.ident "go") ("a", "c")] "a"

/-- Example: an automaton whose current state `y` has no outgoing edges. -/
def exSink : Fa := FiniteAutomaton.build [] [.mk2 (.ident "go") ("x", "y")] "y"

/-- The adjacency row of `exTwo` at its current state `a`: two targets whose
edges are both keyed by `go`. -/
def exTwoRow : Row :=
  [("b", [("go", [(TRANSITION, AttrVal.handler (Handler.defaultBound "a" "b"))])]),
   ("c", [("go", [(TRANSITION, AttrVal.handler (Handler.defaultBound "a" "c"))])])]

/-
Association-list lemmas: how lookup interacts with assignment, and how two
assignments at the same key compose.
-/

theorem alookup_aupsert_self {β : Type} (k : String) (f : Option β → β) (l : List (String × β)) :
    alookup k (aupsert k f l) = some (f (alookup k l)) := by
  induction l with
  | nil => simp [alookup, aupsert]
  | cons hd tl ih =>
    obtain ⟨k', v⟩ := hd
    by_cases hk : k' = k
    · subst hk
      simp [alookup, aupsert]
    · simp [alookup, aupsert, hk, ih]

theorem alookup_aupsert_ne {β : Type} (k k' : String) (hne : k ≠ k')
    (f : Option β → β) (l : List (String × β)) :
    alookup k' (aupsert k f l) = alookup k' l := by
  induction l with
  | nil => simp [alookup, aupsert, hne]
  | cons hd tl ih =>
    obtain ⟨k₀, v⟩ := hd
    by_cases hk : k₀ = k
    · subst hk
      simp [alookup, aupsert, hne]
    · simp [alookup, aupsert, hk, ih]

theorem alookup_ainsert_self {β : Type} (k : String) (v : β) (l : List (String × β)) :
    alookup k (ainsert k v l) = some v := by
  simp [ainsert, alookup_aupsert_self]

theorem aupsert_aupsert_same {β : Type} (k : String) (f g : Option β → β) (l : List (String × β)) :
    aupsert k g (aupsert k f l) = aupsert k (fun o => g (some (f o))) l := by
  induction l with
  | nil => simp [aupsert]
  | cons hd tl ih =>
    obtain ⟨k₀, v⟩ := hd
    by_cases hk : k₀ = k
    · subst hk
      simp [aupsert]
    · simp [aupsert, hk, ih]

theorem mem_aupsert {β : Type} {k : String} {f : Option β → β} {l : List (String × β)}
    {e : String × β} (he : e ∈ aupsert k f l) :
    e ∈ l ∨ e = (k, f (alookup k l)) := by
  induction l with
  | nil =>
    simp [aupsert] at he
    simp [alookup, he]
  | cons hd tl ih =>
    obtain ⟨k₀, v⟩ := hd
    by_cases hk : k₀ = k
    · subst hk
      simp [aupsert] at he
      rcases he with he | he
      · right
        simp [alookup, he]
      · left
        simp [he]
    · simp [aupsert, hk] at he
      rcases he with he | he
      · left
        simp [he]
      · rcases ih he with h | h
        · left
          simp [h]
        · right
          simpa [alookup, hk] using h

theorem alookup_mem {β : Type} {k : String} {l : List (String × β)} {v : β}
    (h : alookup k l = some v) : (k, v) ∈ l := by
  induction l with
  | nil => simp [alookup] at h
  | cons hd tl ih =>
    obtain ⟨k₀, v₀⟩ := hd
    by_cases hk : k₀ = k
    · subst hk
      simp [alookup] at h
      simp [h]
    · simp [alookup, hk] at h
      simp [ih h]

theorem alookup_append {β : Type} (k : String) (l₁ l₂ : List (String × β)) :
    alookup k (l₁ ++ l₂) = ((alookup k l₁).rec (alookup k l₂) fun v => some v) := by
  induction l₁ with
  | nil => simp [alookup]
  | cons hd tl ih =>
    obtain ⟨k₀, v₀⟩ := hd
    by_cases hk : k₀ = k
    · subst hk
      simp [alookup]
    · simp [alookup, hk, ih]

/-
Field-preservation lemmas: which operations touch which components of the
automaton state.
-/

theorem addNode_current (a : Fa) (u : String) : (addNode a u).current = a.current := by
  unfold addNode
  split <;> rfl

theorem addNode_attached (a : Fa) (u : String) : (addNode a u).attached = a.attached := by
  unfold addNode
  split <;> rfl

theorem addNode_output (a : Fa) (u : String) : (addNode a u).output = a.output := by
  unfold addNode
  split <;> rfl

theorem add_edge_current (a : Fa) (u v key : String) (attr : Attrs) :
    (add_edge a u v key attr).current = a.current := by
  simp [add_edge, addNode_current]

theorem add_edge_attached (a : Fa) (u v key : String) (attr : Attrs) :
    (add_edge a u v key attr).attached = a.attached := by
  simp [add_edge, addNode_attached]

theorem add_edge_output (a : Fa) (u v key : String) (attr : Attrs) :
    (add_edge a u v key attr).output = a.output := by
  simp [add_edge, addNode_output]

theorem setTransition_current (a : Fa) (u v key : String) (h : Handler) :
    (setTransition a u v key h).current = a.current := rfl

theorem setTransition_nodes (a : Fa) (u v key : String) (h : Handler) :
    (setTransition a u v key h).nodes = a.nodes := rfl

theorem setTransition_attached (a : Fa) (u v key : String) (h : Handler) :
    (setTransition a u v key h).attached = a.attached := rfl

theorem setTransition_output (a : Fa) (u v key : String) (h : Handler) :
    (setTransition a u v key h).output = a.output := rfl

theorem add_transition_current (classAttrs : List String) (a : Fa) (symbol : Symbol)
    (states : String × String) (attrs : Option Attrs) :
    (add_transition classAttrs a symbol states attrs).current = a.current := by
  cases symbol with
  | func fnName => simp [add_transition, setTransition_current, add_edge_current]
  | ident s =>
    simp only [add_transition]
    split <;> simp [setTransition_current, add_edge_current]

theorem add_transition_output (classAttrs : List String) (a : Fa) (symbol : Symbol)
    (states : String × String) (attrs : Option Attrs) :
    (add_transition classAttrs a symbol states attrs).output = a.output := by
  cases symbol with
  | func fnName => simp [add_transition, setTransition_output, add_edge_output]
  | ident s =>
    simp only [add_transition]
    split <;> simp [setTransition_output, add_edge_output]

theorem initStep_current (classAttrs : List String) (a : Fa) (d : TransitionDescr) :
    (initStep classAttrs a d).current = a.current := by
  cases d <;> simp [initStep, add_transition_current]

/-- The constructor loop never touches `current`: the `current` of the built
automaton is the declared initial state. -/
theorem build_current (classAttrs : List String) (ts : List TransitionDescr) (s : String) :
    (FiniteAutomaton.build classAttrs ts s).current = s := by
  unfold FiniteAutomaton.build
  generalize hinit :
    ({ nodes := [], adj := [], current := s, attached := [], output := [] } : Fa) = a0
  have hcur : a0.current = s := by rw [← hinit]
  clear hinit
  induction ts generalizing a0 with
  | nil => simpa using hcur
  | cons d tl ih =>
    simp only [List.foldl_cons]
    exact ih _ (by rw [initStep_current, hcur])

/-- Invocation only writes `current` and `output`. -/
theorem invoke_nodes (env : MethodSem) (h : Handler) (p : Payload) (a : Fa) :
    (invoke env h p a).nodes = a.nodes := by
  cases h <;> rfl

theorem invoke_adj (env : MethodSem) (h : Handler) (p : Payload) (a : Fa) :
    (invoke env h p a).adj = a.adj := by
  cases h <;> rfl

/-
Node-set lemmas.
-/

theorem addNode_nodes (a : Fa) (u : String) :
    (addNode a u).nodes = if u ∈ a.nodes then a.nodes else a.nodes ++ [u] := by
  unfold addNode
  split <;> simp_all

theorem addNode_adj (a : Fa) (u : String) :
    (addNode a u).adj = if u ∈ a.nodes then a.adj else a.adj ++ [(u, [])] := by
  unfold addNode
  split <;> simp_all

theorem mem_addNode {a : Fa} {x : String} (u : String) (hx : x ∈ a.nodes) :
    x ∈ (addNode a u).nodes := by
  rw [addNode_nodes]
  split <;> simp [hx]

theorem mem_addNode_self (a : Fa) (u : String) : u ∈ (addNode a u).nodes := by
  rw [addNode_nodes]
  split <;> simp_all

theorem add_edge_nodes (a : Fa) (u v key : String) (attr : Attrs) :
    (add_edge a u v key attr).nodes = (addNode (addNode a u) v).nodes := rfl

theorem mem_add_edge {a : Fa} {x : String} (u v key : String) (attr : Attrs)
    (hx : x ∈ a.nodes) : x ∈ (add_edge a u v key attr).nodes := by
  rw [add_edge_nodes]
  exact mem_addNode v (mem_addNode u hx)

theorem target_mem_add_edge (a : Fa) (u v key : String) (attr : Attrs) :
    v ∈ (add_edge a u v key attr).nodes := by
  rw [add_edge_nodes]
  exact mem_addNode_self (addNode a u) v

theorem mem_add_transition {a : Fa} {x : String} (classAttrs : List String) (symbol : Symbol)
    (states : String × String) (attrs : Option Attrs) (hx : x ∈ a.nodes) :
    x ∈ (add_transition classAttrs a symbol states attrs).nodes := by
  cases symbol with
  | func fnName =>
    simp only [add_transition, setTransition_nodes]
    exact mem_add_edge _ _ _ _ hx
  | ident s =>
    simp only [add_transition]
    split
    · simp only [setTransition_nodes]
      exact mem_add_edge _ _ _ _ hx
    · simp only [setTransition_nodes]
      exact mem_add_edge _ _ _ _ hx

/-
Well-formedness: every handler stored under the `TRANSITION` key of any edge
advances (when it is the default handler) to a node of the graph.  This is
the invariant the constructor and the registrar establish, and the one the
driver needs so that firing keeps `current` inside the node set.
-/

theorem handlerWF_mono {n₁ n₂ : List String} (hsub : ∀ x ∈ n₁, x ∈ n₂)
    {h : Handler} (hwf : handlerWF n₁ h = true) : handlerWF n₂ h = true := by
  cases h with
  | defaultBound s t =>
    simp only [handlerWF, List.elem_iff] at hwf ⊢
    exact hsub t hwf
  | methodBound nm s t => rfl
  | attachedBound nm s t => rfl

theorem attrsWF_mono {n₁ n₂ : List String} (hsub : ∀ x ∈ n₁, x ∈ n₂)
    {attrs : Attrs} (hwf : attrsWF n₁ attrs = true) : attrsWF n₂ attrs = true := by
  unfold attrsWF at hwf ⊢
  revert hwf
  cases alookup TRANSITION attrs with
  | none => intro h
            exact h
  | some v =>
    cases v with
    | str s => intro h
               simp at h
    | handler h => intro hh
                   exact handlerWF_mono hsub hh

theorem graphWF_iff (a : Fa) :
    graphWF a = true ↔
      ∀ ur ∈ a.adj, ∀ tv ∈ ur.2, ∀ ka ∈ tv.2, attrsWF a.nodes ka.2 = true := by
  simp [graphWF, rowWF, List.all_eq_true]

theorem graphWF_addNode {a : Fa} (u : String) (hwf : graphWF a = true) :
    graphWF (addNode a u) = true := by
  rw [graphWF_iff] at hwf ⊢
  intro ur hur tv htv ka hka
  have hnodes : ∀ x ∈ a.nodes, x ∈ (addNode a u).nodes := fun x hx => mem_addNode u hx
  rw [addNode_adj] at hur
  split at hur
  · exact attrsWF_mono hnodes (hwf ur hur tv htv ka hka)
  · rcases List.mem_append.mp hur with h | h
    · exact attrsWF_mono hnodes (hwf ur h tv htv ka hka)
    · simp at h
      rw [h] at htv
      simp at htv

/-- The two nested-dict assignments performed by `add_transition` on the
edge path `(u, v, key)` — `add_edge`'s attribute merge followed by the
direct `TRANSITION` assignment — compose into a single update of the
original adjacency structure. -/
theorem setTransition_add_edge_adj (a : Fa) (u v key : String) (attr : Attrs) (h : Handler) :
    (setTransition (add_edge a u v key attr) u v key h).adj =
    aupsert u (fun row =>
      aupsert v (fun kd =>
        aupsert key (fun old =>
          ainsert TRANSITION (.handler h)
            (match old with
             | some d => dictUpdate d attr
             | none => attr))
          (kd.getD []))
        (row.getD []))
      (addNode (addNode a u) v).adj := by
  show aupsert u _ (aupsert u _ (addNode (addNode a u) v).adj) = _
  rw [aupsert_aupsert_same]
  congr 1
  funext o
  simp only [Option.getD_some]
  rw [aupsert_aupsert_same]
  congr 1
  funext o'
  simp only [Option.getD_some]
  rw [aupsert_aupsert_same]
  rfl

theorem graphWF_setTransition_add_edge {a : Fa} (u v key : String) (attr : Attrs) (h : Handler)
    (hwf : graphWF a = true)
    (hh : handlerWF (add_edge a u v key attr).nodes h = true) :
    graphWF (setTransition (add_edge a u v key attr) u v key h) = true := by
  have hbase : graphWF (addNode (addNode a u) v) = true :=
    graphWF_addNode v (graphWF_addNode u hwf)
  rw [graphWF_iff] at hbase ⊢
  rw [setTransition_nodes, add_edge_nodes] at *
  rw [setTransition_add_edge_adj]
  intro ur hur tv htv ka hka
  rcases mem_aupsert hur with hur' | hur'
  · exact hbase ur hur' tv htv ka hka
  · rw [hur'] at htv
    simp only at htv
    rcases mem_aupsert htv with htv' | htv'
    · -- an untouched target entry of the original row at `u`
      rcases ho : alookup u (addNode (addNode a u) v).adj with _ | r
      · rw [ho] at htv'
        simp at htv'
      · rw [ho] at htv'
        simp only [Option.getD_some] at htv'
        exact hbase _ (alookup_mem ho) tv htv' ka hka
    · rw [htv'] at hka
      simp only at hka
      rcases mem_aupsert hka with hka' | hka'
      · -- an untouched keyed edge of the original key dict at `(u, v)`
        rcases ho : alookup u (addNode (addNode a u) v).adj with _ | r
        · rw [ho] at hka'
          simp [alookup] at hka'
        · rw [ho] at hka'
          simp only [Option.getD_some] at hka'
          rcases ho' : alookup v r with _ | kd
          · rw [ho'] at hka'
            simp at hka'
          · rw [ho'] at hka'
            simp only [Option.getD_some] at hka'
            exact hbase _ (alookup_mem ho) _ (alookup_mem ho') ka hka'
      · -- the freshly assigned keyed edge: `TRANSITION` holds the new handler
        rw [hka']
        simp only [attrsWF, alookup_ainsert_self]
        exact hh

/-- Registering a transition keeps the graph node-safe: the handler it binds
is either a named handler or the default handler bound to the edge's target,
and `add_edge` has put that target into the node set. -/
theorem graphWF_add_transition {a : Fa} (classAttrs : List String) (symbol : Symbol)
    (states : String × String) (attrs : Option Attrs) (hwf : graphWF a = true) :
    graphWF (add_transition classAttrs a symbol states attrs) = true := by
  cases symbol with
  | func fnName =>
    have hwf' : graphWF { a with
        attached := if a.attached.contains fnName then a.attached
                    else a.attached ++ [fnName] } = true := hwf
    exact graphWF_setTransition_add_edge _ _ _ _ _ hwf' rfl
  | ident s =>
    simp only [add_transition]
    split
    · exact graphWF_setTransition_add_edge _ _ _ _ _ hwf rfl
    · refine graphWF_setTransition_add_edge _ _ _ _ _ hwf ?_
      simp only [handlerWF, List.elem_iff]
      exact target_mem_add_edge a states.1 states.2 s ((attrs.getD []))

/-- The constructor produces a node-safe graph. -/
theorem graphWF_build (classAttrs : List String) (ts : List TransitionDescr) (s : String) :
    graphWF (FiniteAutomaton.build classAttrs ts s) = true := by
  unfold FiniteAutomaton.build
  generalize hinit :
    ({ nodes := [], adj := [], current := s, attached := [], output := [] } : Fa) = a0
  have hwf0 : graphWF a0 = true := by rw [← hinit]; rfl
  clear hinit
  induction ts generalizing a0 with
  | nil => simpa using hwf0
  | cons d tl ih =>
    simp only [List.foldl_cons]
    refine ih _ ?_
    cases d with
    | mk2 symbol states => exact graphWF_add_transition classAttrs symbol states none hwf0
    | mk3 symbol states attrs => exact graphWF_add_transition classAttrs symbol states (some attrs) hwf0
    | other n => exact hwf0

/-
Dispatch-loop lemmas: the imperative loop of `__call__`, modeled as a
monadic fold over the adjacency row, equals the sequential invocation of the
declaratively described matched handlers.
-/

theorem foldlM_callStep_ok (env : MethodSem) (symbol : String) (p : Payload) :
    ∀ (targets : Row) (a : Fa), targets.all (matchOk symbol) = true →
      List.foldlM (callStep env symbol p) a targets =
        .ok ((edgesKeyedBy targets symbol).foldl (fun st h => invoke env h p st) a) := by
  intro targets
  induction targets with
  | nil => intro a _
           rfl
  | cons tv rest ih =>
    intro a hall
    rw [List.all_cons, Bool.and_eq_true] at hall
    obtain ⟨hhd, htl⟩ := hall
    unfold matchOk at hhd
    rcases hsym : alookup symbol tv.2 with _ | attrs
    · rw [hsym] at hhd
      have hstep : callStep env symbol p a tv = .ok a := by
        unfold callStep
        rw [hsym]
      calc List.foldlM (callStep env symbol p) a (tv :: rest)
          = callStep env symbol p a tv >>= fun a' =>
              List.foldlM (callStep env symbol p) a' rest := rfl
        _ = List.foldlM (callStep env symbol p) a rest := by rw [hstep]; rfl
        _ = _ := by
              rw [ih a htl]
              unfold edgesKeyedBy
              rw [List.filterMap_cons]
              simp only [hsym]
    · simp only [hsym] at hhd
      rcases htr : alookup TRANSITION attrs with _ | v
      · simp only [htr] at hhd
        exact absurd hhd (by simp)
      · simp only [htr] at hhd
        cases v with
        | str sv => simp at hhd
        | handler h =>
          have hstep : callStep env symbol p a tv = .ok (invoke env h p a) := by
            simp only [callStep, hsym, htr]
          calc List.foldlM (callStep env symbol p) a (tv :: rest)
              = callStep env symbol p a tv >>= fun a' =>
                  List.foldlM (callStep env symbol p) a' rest := rfl
            _ = List.foldlM (callStep env symbol p) (invoke env h p a) rest := by
                  rw [hstep]; rfl
            _ = _ := by
                  rw [ih _ htl]
                  unfold edgesKeyedBy
                  rw [List.filterMap_cons]
                  simp only [hsym, htr, List.foldl_cons]

/-- Invoking a node-safe handler from a state whose `current` is a node keeps
`current` a node, and never touches the graph. -/
theorem invoke_preserves {N : List String} {env : MethodSem} {h : Handler} {p : Payload}
    {a : Fa} (henv : envPreserves N env) (hh : handlerWF N h = true)
    (hc : a.current ∈ N) : (invoke env h p a).current ∈ N := by
  cases h with
  | defaultBound s t =>
    simp only [handlerWF, List.elem_iff] at hh
    simpa [invoke] using hh
  | methodBound nm s t => exact henv nm s t p a.current a.output hc
  | attachedBound nm s t => exact henv nm s t p a.current a.output hc

/-- Running the dispatch loop over a node-safe adjacency row keeps `current`
inside the node set and leaves the graph untouched. -/
theorem foldlM_callStep_preserves {N : List String} (env : MethodSem) (symbol : String)
    (p : Payload) (henv : envPreserves N env) :
    ∀ (targets : Row) (a a' : Fa), rowWF N targets = true →
      a.current ∈ N →
      List.foldlM (callStep env symbol p) a targets = .ok a' →
      a'.current ∈ N ∧ a'.nodes = a.nodes ∧ a'.adj = a.adj := by
  intro targets
  induction targets with
  | nil =>
    intro a a' _ hc hfold
    cases hfold
    exact ⟨hc, rfl, rfl⟩
  | cons tv rest ih =>
    intro a a' hrow hc hfold
    rw [rowWF, List.all_cons, Bool.and_eq_true] at hrow
    obtain ⟨hhd, htl⟩ := hrow
    have hfold' : (callStep env symbol p a tv >>= fun a₁ =>
        List.foldlM (callStep env symbol p) a₁ rest) = .ok a' := hfold
    rcases hstep : callStep env symbol p a tv with e | a₁
    · rw [hstep] at hfold'
      simp [Bind.bind, Except.bind] at hfold'
    · rw [hstep] at hfold'
      have hrest : List.foldlM (callStep env symbol p) a₁ rest = .ok a' := hfold'
      -- the step either skips or invokes a node-safe handler
      have hstep' : a₁.current ∈ N ∧ a₁.nodes = a.nodes ∧ a₁.adj = a.adj := by
        unfold callStep at hstep
        rcases hsym : alookup symbol tv.2 with _ | attrs
        · simp only [hsym] at hstep
          cases hstep
          exact ⟨hc, rfl, rfl⟩
        · simp only [hsym] at hstep
          rcases htr : alookup TRANSITION attrs with _ | v
          · simp only [htr] at hstep
            cases hstep
          · simp only [htr] at hstep
            cases v with
            | str sv => simp at hstep
            | handler h =>
              cases hstep
              have hka : (symbol, attrs) ∈ tv.2 := alookup_mem hsym
              have hattrs : attrsWF N attrs = true := by
                rw [List.all_eq_true] at hhd
                exact hhd _ hka
              have hh : handlerWF N h = true := by
                unfold attrsWF at hattrs
                rw [htr] at hattrs
                exact hattrs
              exact ⟨invoke_preserves henv hh hc, invoke_nodes env h p a, invoke_adj env h p a⟩
      obtain ⟨hc₁, hn₁, hadj₁⟩ := hstep'
      obtain ⟨hc', hn', hadj'⟩ := ih a₁ a' htl hc₁ hrest
      exact ⟨hc', hn'.trans hn₁, hadj'.trans hadj₁⟩

/-- After the `add_edge` / `TRANSITION`-assignment pair of `add_transition`,
the stored `TRANSITION` attribute of the touched edge is exactly the assigned
handler, whatever the user-supplied attribute dict contained. -/
theorem edgeTransition_setTransition_add_edge (a : Fa) (u v key : String) (attr : Attrs)
    (h : Handler) :
    edgeTransition (setTransition (add_edge a u v key attr) u v key h) u v key =
      some (AttrVal.handler h) := by
  unfold edgeTransition
  rw [setTransition_add_edge_adj, alookup_aupsert_self]
  simp only [Option.some_bind]
  rw [alookup_aupsert_self]
  simp only [Option.some_bind]
  rw [alookup_aupsert_self]
  simp only [Option.some_bind]
  rw [alookup_ainsert_self]

/-- Adding an edge does not change the attributes the instance exposes. -/
theorem getattrB_add_edge (classAttrs : List String) (a : Fa) (u v key nm : String)
    (attr : Attrs) :
    getattrB classAttrs (add_edge a u v key attr) nm = getattrB classAttrs a nm := by
  simp [getattrB, add_edge_attached]

/-- After attaching a callable under its name, the instance's attribute list
contains that name. -/
theorem attached_contains_after (a : Fa) (fnName : String) :
    (if a.attached.contains fnName then a.attached
     else a.attached ++ [fnName]).contains fnName = true := by
  split
  next hyes => exact hyes
  next hno => simp [List.elem_iff]

/-
Claim theorems.
-/

/-- C8 (confirmed): for every pair `(start, symbol)`, constructing an
`IllegalTransition` error does not produce a well-formed message: the
constructor applies a format string containing two `%s` placeholders to the
single argument `start`, so instantiation fails with a formatting-arity error
instead of yielding the intended "illegal transition" message. -/
theorem c8_illegal_transition_malformed (start symbol : String) :
    IllegalTransition.build start symbol =
      .error "TypeError: not enough arguments for format string" := by
  unfold IllegalTransition.build pyFormatOne
  have h2 : countPS illegalTransitionFmt.data = 2 := by decide
  rw [h2]
  rfl

/-- C10 (confirmed): a construction-time transition descriptor whose length is
neither 2 nor 3 is silently skipped: the automaton built from a descriptor
list containing it is identical to the one built without it — no edge or node
is added for it, no error is raised, and the remaining well-formed descriptors
are applied as usual. -/
theorem c10_malformed_descriptor_skipped (classAttrs : List String)
    (pre post : List TransitionDescr) (n : Nat) (s : String) :
    FiniteAutomaton.build classAttrs (pre ++ TransitionDescr.other n :: post) s =
      FiniteAutomaton.build classAttrs (pre ++ post) s := by
  unfold FiniteAutomaton.build
  rw [List.foldl_append, List.foldl_append, List.foldl_cons]
  rfl

/-- C2 (counterexample): constructing an automaton whose declared initial
state `Y` is not among the nodes `{a, b}` of the graph built from the
transition list does not fail — no `InvalidStartingState` error is produced,
refuting the claimed "fails if and only if" equivalence. -/
theorem c2_counterexample :
    (FiniteAutomaton.buildE [] [.mk2 (.ident "s") ("a", "b")] "Y").isOk = true ∧
      ¬ ("Y" ∈ (FiniteAutomaton.build [] [.mk2 (.ident "s") ("a", "b")] "Y").nodes) := by
  exact ⟨rfl, by decide⟩

/-- C2 (corrected): construction never fails — for every transition list and
every initial state, the constructor returns an automaton (it raises no
`InvalidStartingState` error, whether or not the initial state is among the
graph's nodes), and the returned automaton's `current` is the declared initial
state, stored unvalidated. -/
theorem c2_construction_never_fails (classAttrs : List String)
    (ts : List TransitionDescr) (s : String) :
    (FiniteAutomaton.buildE classAttrs ts s).isOk = true ∧
      (FiniteAutomaton.build classAttrs ts s).current = s :=
  ⟨rfl, build_current classAttrs ts s⟩

/-- C1 (counterexample): the claimed invariant fails immediately after
construction — an automaton constructed from the single transition
`s : a → b` with initial state `X` has `current = X`, which is not an element
of the node set `{a, b}`. -/
theorem c1_counterexample :
    ¬ ((FiniteAutomaton.build [] [.mk2 (.ident "s") ("a", "b")] "X").current
        ∈ (FiniteAutomaton.build [] [.mk2 (.ident "s") ("a", "b")] "X").nodes) := by
  decide

/-- C1 (corrected): the constructor stores the declared initial state as
`current` without validation (so `current` is a node after construction
exactly when the initial state is one), and the graph it builds is node-safe;
from any node-safe automaton whose `current` is a node, any fire call that
returns — for any symbol and any payload, provided the custom handlers it
runs keep `current` within the node set (default handlers always do) — leaves
`current` an element of the (unchanged) node set, with the graph and its
node-safety intact. -/
theorem c1_current_in_nodes (classAttrs : List String) (ts : List TransitionDescr)
    (s0 : String) :
    ((FiniteAutomaton.build classAttrs ts s0).current = s0 ∧
      graphWF (FiniteAutomaton.build classAttrs ts s0) = true) ∧
    (∀ (env : MethodSem) (a a' : Fa) (symbol : String) (p : Payload),
      graphWF a = true → a.current ∈ a.nodes → envPreserves a.nodes env →
      call env a symbol p = .ok a' →
      a'.current ∈ a'.nodes ∧ a'.nodes = a.nodes ∧ a'.adj = a.adj ∧ graphWF a' = true) := by
  refine ⟨⟨build_current classAttrs ts s0, graphWF_build classAttrs ts s0⟩, ?_⟩
  intro env a a' symbol p hwf hc henv hcall
  unfold call at hcall
  rcases hadj : alookup a.current a.adj with _ | targets
  · rw [hadj] at hcall
    cases hcall
  · simp only [hadj] at hcall
    by_cases hemp : targets.isEmpty
    · rw [if_pos hemp] at hcall
      cases hcall
      refine ⟨hc, rfl, rfl, ?_⟩
      exact hwf
    · rw [if_neg hemp] at hcall
      have hrow : rowWF a.nodes targets = true := by
        have hmem : (a.current, targets) ∈ a.adj := alookup_mem hadj
        have := (List.all_eq_true.mp hwf) _ hmem
        exact this
      obtain ⟨hc', hn', hadj'⟩ :=
        foldlM_callStep_preserves env symbol p henv targets a a' hrow hc hcall
      refine ⟨by rw [hn']; exact hc', hn', hadj', ?_⟩
      unfold graphWF
      rw [hn', hadj']
      exact hwf

/-- C1 (witness): the corrected statement applied to the concrete automaton
`exGo` (edge `go : a → b`, initial state `a`, identity custom handlers): the
fire of `go` returns a state whose `current` is still a node and whose graph
is unchanged. -/
theorem c1_witness :
    exGo.current = "a" ∧ graphWF exGo = true ∧
      ({ exGo with
          current := "b",
          output := [defaultMoveMsg "a" "b", defaultAttrsMsg []] } : Fa).current ∈
        ({ exGo with
            current := "b",
            output := [defaultMoveMsg "a" "b", defaultAttrsMsg []] } : Fa).nodes := by
  refine ⟨(c1_current_in_nodes [] [.mk2 (.ident "go") ("a", "b")] "a").1.1, ?_, ?_⟩
  · exact (c1_current_in_nodes [] [.mk2 (.ident "go") ("a", "b")] "a").1.2
  · exact ((c1_current_in_nodes [] [.mk2 (.ident "go") ("a", "b")] "a").2 envId exGo
      ({ exGo with
          current := "b",
          output := [defaultMoveMsg "a" "b", defaultAttrsMsg []] } : Fa) "go" []
      (by decide) (by decide) (fun nm s t p c o hc => hc) rfl).1

/-- C5 (confirmed): firing any symbol with any payload from a current state
that has zero outgoing edges emits exactly the "no available connection"
diagnostic, invokes no handler, and changes nothing else — in particular
`current` is unchanged. -/
theorem c5_no_outgoing_diagnostic (env : MethodSem) (a : Fa) (symbol : String) (p : Payload)
    (h : alookup a.current a.adj = some []) :
    call env a symbol p = .ok { a with output := a.output ++ [noConnectionMsg] } := by
  unfold call
  rw [h]
  rfl

/-- C5 (witness): firing from the sink state `y` of `exSink` appends the
diagnostic and leaves everything else alone. -/
theorem c5_witness :
    call envId exSink "go" [] =
      .ok { exSink with output := exSink.output ++ [noConnectionMsg] } :=
  c5_no_outgoing_diagnostic envId exSink "go" [] (by decide)

/-- C6 (confirmed): when the current state has at least one outgoing edge but
none keyed by the fired symbol, the fire call is a silent no-op: the state is
returned exactly as it was — no handler invoked, no error raised, no
diagnostic emitted, `current` unchanged. -/
theorem c6_unmatched_symbol_noop (env : MethodSem) (a : Fa) (symbol : String) (p : Payload)
    (targets : Row) (hadj : alookup a.current a.adj = some targets) (hne : targets ≠ [])
    (hnomatch : targets.all (fun tv => (alookup symbol tv.2).isNone) = true) :
    call env a symbol p = .ok a := by
  unfold call
  simp only [hadj]
  have hemp : ¬(targets.isEmpty = true) := by
    cases targets with
    | nil => exact absurd rfl hne
    | cons hd tl => simp
  rw [if_neg hemp]
  have hall : targets.all (matchOk symbol) = true := by
    rw [List.all_eq_true] at hnomatch ⊢
    intro tv htv
    have hnone := hnomatch tv htv
    unfold matchOk
    rcases hsym : alookup symbol tv.2 with _ | attrs
    · rfl
    · rw [hsym] at hnone
      simp at hnone
  have hedges : edgesKeyedBy targets symbol = [] := by
    unfold edgesKeyedBy
    rw [List.filterMap_eq_nil_iff]
    intro tv htv
    have hnone := (List.all_eq_true.mp hnomatch) tv htv
    rcases hsym : alookup symbol tv.2 with _ | attrs
    · simp
    · rw [hsym] at hnone
      simp at hnone
  rw [foldlM_callStep_ok env symbol p targets a hall, hedges]
  rfl

/-- C6 (witness): firing the unknown symbol `absent` on `exGo` (whose current
state `a` has one outgoing edge, keyed `go`) returns the automaton exactly
unchanged. -/
theorem c6_witness : call envId exGo "absent" [] = .ok exGo :=
  c6_unmatched_symbol_noop envId exGo "absent" []
    [("b", [("go", [(TRANSITION, AttrVal.handler (Handler.defaultBound "a" "b"))])])]
    (by decide) (by decide) (by decide)

/-- C3 (confirmed): when the current state has at least one outgoing edge, the
fire call runs the dispatch loop to completion: it invokes, in
adjacency-iteration order, the bound handler of every outgoing edge keyed by
the fired symbol — across all target states, not stopping after the first
match — and equals the sequential invocation of exactly that handler list. -/
theorem c3_fires_all_matching (env : MethodSem) (a : Fa) (symbol : String) (p : Payload)
    (targets : Row) (hadj : alookup a.current a.adj = some targets) (hne : targets ≠ [])
    (hok : targets.all (matchOk symbol) = true) :
    call env a symbol p =
      .ok ((edgesKeyedBy targets symbol).foldl (fun st h => invoke env h p st) a) := by
  unfold call
  simp only [hadj]
  have hemp : ¬(targets.isEmpty = true) := by
    cases targets with
    | nil => exact absurd rfl hne
    | cons hd tl => simp
  rw [if_neg hemp]
  exact foldlM_callStep_ok env symbol p targets a hok

/-- C3 (witness): on `exTwo`, whose state `a` has two outgoing edges under
different targets both keyed `go`, firing `go` invokes both handlers — the
matched-handler list has length 2 and the second handler's effect lands last
(`current` ends at `c`), so dispatch did not stop after the first match. -/
theorem c3_witness :
    call envId exTwo "go" [] =
      .ok ((edgesKeyedBy exTwoRow "go").foldl (fun st h => invoke envId h [] st) exTwo) ∧
    (edgesKeyedBy exTwoRow "go").length = 2 ∧
    ((edgesKeyedBy exTwoRow "go").foldl (fun st h => invoke envId h [] st) exTwo).current = "c" :=
  ⟨c3_fires_all_matching envId exTwo "go" [] exTwoRow (by decide) (by decide) (by decide),
   by decide, by decide⟩

/-- C7 (confirmed): a default-handler invocation sets `current` to the
handler's pre-bound target unconditionally, for any payload (the payload is
only logged); a fire through a matched default-handler edge does exactly that
invocation; and the fire entry point itself never writes `current` — whenever
no handler is matched, the returned state's `current` (indeed everything
except possibly the diagnostic log) is exactly the input's. -/
theorem c7_default_handler_advances (env : MethodSem) (s t : String) (p : Payload) (a : Fa) :
    (invoke env (Handler.defaultBound s t) p a =
      { a with current := t, output := a.output ++ [defaultMoveMsg s t, defaultAttrsMsg p] })
    ∧ (∀ (symbol v : String) (kd : KeyDict) (attrs : Attrs),
        alookup a.current a.adj = some [(v, kd)] →
        alookup symbol kd = some attrs →
        alookup TRANSITION attrs = some (AttrVal.handler (Handler.defaultBound s t)) →
        call env a symbol p = .ok (invoke env (Handler.defaultBound s t) p a))
    ∧ (∀ (symbol : String) (targets : Row),
        alookup a.current a.adj = some targets →
        targets.all (matchOk symbol) = true →
        edgesKeyedBy targets symbol = [] →
        call env a symbol p = .ok a ∨
          call env a symbol p = .ok { a with output := a.output ++ [noConnectionMsg] }) := by
  refine ⟨rfl, ?_, ?_⟩
  · intro symbol v kd attrs hadj hsym htr
    unfold call
    simp only [hadj]
    rw [if_neg (by simp)]
    have hstep : callStep env symbol p a (v, kd) = .ok (invoke env (.defaultBound s t) p a) := by
      simp only [callStep, hsym, htr]
    calc List.foldlM (callStep env symbol p) a [(v, kd)]
        = callStep env symbol p a (v, kd) >>= fun a₁ =>
            List.foldlM (callStep env symbol p) a₁ [] := rfl
      _ = .ok (invoke env (Handler.defaultBound s t) p a) := by rw [hstep]; rfl
  · intro symbol targets hadj hall hedges
    cases targets with
    | nil =>
      right
      unfold call
      rw [hadj]
      rfl
    | cons tv rest =>
      left
      unfold call
      simp only [hadj]
      rw [if_neg (by simp)]
      rw [foldlM_callStep_ok env symbol p (tv :: rest) a hall, hedges]
      rfl

/-- C7 (witness): on `exGo`, the default handler bound to `(a, b)` moves
`current` to `b` whatever the payload; firing `go` performs exactly that
invocation; and firing the unmatched symbol `absent` leaves the state
untouched. -/
theorem c7_witness :
    (invoke envId (Handler.defaultBound "a" "b") [("coin_value", "0.05")] exGo =
      { exGo with
          current := "b",
          output := exGo.output ++
            [defaultMoveMsg "a" "b", defaultAttrsMsg [("coin_value", "0.05")]] })
    ∧ call envId exGo "go" [] = .ok (invoke envId (Handler.defaultBound "a" "b") [] exGo)
    ∧ (call envId exGo "absent" [] = .ok exGo ∨
        call envId exGo "absent" [] = .ok { exGo with output := exGo.output ++ [noConnectionMsg] }) :=
  ⟨(c7_default_handler_advances envId "a" "b" [("coin_value", "0.05")] exGo).1,
   (c7_default_handler_advances envId "a" "b" [] exGo).2.1 "go" "b"
     [("go", [(TRANSITION, AttrVal.handler (Handler.defaultBound "a" "b"))])]
     [(TRANSITION, AttrVal.handler (Handler.defaultBound "a" "b"))]
     (by decide) (by decide) (by decide),
   (c7_default_handler_advances envId "a" "b" [] exGo).2.2 "absent"
     [("b", [("go", [(TRANSITION, AttrVal.handler (Handler.defaultBound "a" "b"))])])]
     (by decide) (by decide) (by decide)⟩

/-- C4 (confirmed): `add_transition` resolves the edge's handler once, at
registration time, in this order: a callable symbol is attached to the
instance under its name and bound with `(self, source, target)` pre-applied;
otherwise an identifier naming an attribute the instance exposes binds that
attribute with `(source, target)` pre-applied; otherwise the default handler
is bound with `(source, target)` pre-applied. -/
theorem c4_resolution_order (classAttrs : List String) (a : Fa) (f s u v : String)
    (attrs : Option Attrs) :
    (edgeTransition (add_transition classAttrs a (Symbol.func f) (u, v) attrs) u v f =
        some (AttrVal.handler (Handler.attachedBound f u v))
      ∧ (add_transition classAttrs a (Symbol.func f) (u, v) attrs).attached.contains f = true)
    ∧ (getattrB classAttrs a s = true →
        edgeTransition (add_transition classAttrs a (Symbol.ident s) (u, v) attrs) u v s =
          some (AttrVal.handler (Handler.methodBound s u v)))
    ∧ (getattrB classAttrs a s = false →
        edgeTransition (add_transition classAttrs a (Symbol.ident s) (u, v) attrs) u v s =
          some (AttrVal.handler (Handler.defaultBound u v))) := by
  refine ⟨⟨?_, ?_⟩, ?_, ?_⟩
  · exact edgeTransition_setTransition_add_edge _ u v f _ _
  · show ((setTransition (add_edge _ u v f _) u v f _).attached).contains f = true
    rw [setTransition_attached, add_edge_attached]
    exact attached_contains_after a f
  · intro hget
    simp only [add_transition]
    rw [getattrB_add_edge, hget, if_pos rfl]
    exact edgeTransition_setTransition_add_edge _ u v s _ _
  · intro hget
    simp only [add_transition]
    rw [getattrB_add_edge, hget, if_neg (show ¬(false = true) by simp)]
    exact edgeTransition_setTransition_add_edge _ u v s _ _

/-- C4 (witness): the three resolution outcomes on concrete inputs — the
callable `slam` is attached and bound with the instance pre-applied; the
identifier `enter_coin`, exposed by the subclass, binds that method; the
unknown identifier `push` falls back to the default handler. -/
theorem c4_witness :
    (edgeTransition (add_transition ["enter_coin"] exGo (Symbol.func "slam") ("a", "b") none)
        "a" "b" "slam" = some (AttrVal.handler (Handler.attachedBound "slam" "a" "b"))
      ∧ (add_transition ["enter_coin"] exGo (Symbol.func "slam") ("a", "b") none).attached.contains
          "slam" = true)
    ∧ edgeTransition (add_transition ["enter_coin"] exGo (Symbol.ident "enter_coin") ("a", "b") none)
        "a" "b" "enter_coin" = some (AttrVal.handler (Handler.methodBound "enter_coin" "a" "b"))
    ∧ edgeTransition (add_transition ["enter_coin"] exGo (Symbol.ident "push") ("a", "b") none)
        "a" "b" "push" = some (AttrVal.handler (Handler.defaultBound "a" "b")) :=
  ⟨(c4_resolution_order ["enter_coin"] exGo "slam" "push" "a" "b" none).1,
   (c4_resolution_order ["enter_coin"] exGo "slam" "enter_coin" "a" "b" none).2.1 (by decide),
   (c4_resolution_order ["enter_coin"] exGo "slam" "push" "a" "b" none).2.2 (by decide)⟩

/-- C9 (confirmed): after any `add_transition(symbol, (source, target), attrs)`
call, the stored edge's attribute dict binds the sentinel key
`__TRANSITION_FUNCTION` to the handler the resolution order produces — even
when the caller-supplied attrs already contained an entry under that exact
key, whose value is silently overwritten; every edge added through
`add_transition` thus carries exactly the resolved handler there. -/
theorem c9_transition_key_overwritten (classAttrs : List String) (a : Fa) (symbol : Symbol)
    (u v : String) (attrs : Attrs) (userVal : AttrVal) :
    edgeTransition
      (add_transition classAttrs a symbol (u, v) (some (ainsert TRANSITION userVal attrs)))
      u v (keyOf symbol) =
      some (AttrVal.handler (resolvedHandler classAttrs a symbol u v)) := by
  cases symbol with
  | func fnName =>
    exact edgeTransition_setTransition_add_edge _ u v fnName _ _
  | ident s =>
    simp only [add_transition, resolvedHandler, keyOf]
    rw [getattrB_add_edge]
    by_cases hget : getattrB classAttrs a s = true
    · rw [hget, if_pos rfl, if_pos rfl]
      exact edgeTransition_setTransition_add_edge _ u v s _ _
    · rw [Bool.not_eq_true] at hget
      rw [hget, if_neg (show ¬(false = true) by simp),
        if_neg (show ¬(false = true) by simp)]
      exact edgeTransition_setTransition_add_edge _ u v s _ _

end Neuromaton
